import Mathlib

/-!
# chaosblade-mcp: the service context, the command templates and their contracts

A shallow embedding of `main.go`: the data structures of the server
(`ServiceInfo`, `ExperimentInfo`, `ServiceContext`, `ChaosBladeMCPServer`), the
template table `commandTemplates`, the constructor `NewChaosBladeMCPServer` and
the registry set-up performed by `main`.

Go values are embedded as follows.

* `map[string]V` is an association list with at most one entry per key;
  `m[k] = v` is `GoMap.set` (replace the entry of `k`, or add one) and the
  comma-ok read `v, ok := m[k]` is `GoMap.get` (`none` when `ok` is false).
* A slice is a `List`.
* A pointer that may be nil is an `Option`.
* A map field that may be nil is an `Option` of a map: `none` is the nil map
  (the zero value), on which a read finds nothing and an assignment panics;
  `some m` is a map made by `make` or by a map literal.
* `time.Time` is a natural number (an instant on some clock).
* The templates are Go format strings; `Sprintf` embeds `fmt.Sprintf` for the
  verbs they use.

`main.go` has no experiment tracker: `record`, `list` and `updateStatus` are
modelled from the specification (section 4.4) and marked as such. The registry
operation of the code is the map assignment in `main`.
-/

namespace ChaosBlade

/-! ## Go maps -/

/-- A Go `map[string]V`. -/
abbrev GoMap (V : Type) := List (String × V)

namespace GoMap

/-- The comma-ok read `v, ok := m[k]`. -/
def get {V : Type} : GoMap V → String → Option V
  | [], _ => none
  | (k', v) :: rest, k => if k' = k then some v else get rest k

/-- The assignment `m[k] = v`. -/
def set {V : Type} : GoMap V → String → V → GoMap V
  | [], k, v => [(k, v)]
  | (k', v') :: rest, k, v => if k' = k then (k, v) :: rest else (k', v') :: set rest k v

/-- The keys present in the map. -/
def keys {V : Type} (m : GoMap V) : List String := m.map Prod.fst

end GoMap

/-! ## Data structures of `main.go` -/

/-- Service information. -/
structure ServiceInfo where
  Name : String
  Port : Int
  Host : String
  Process : String
  deriving DecidableEq, Repr

/-- Experiment information. -/
structure ExperimentInfo where
  ID : String
  Description : String
  Command : String
  Timestamp : Nat
  Status : String
  deriving DecidableEq, Repr

/-- Service context for maintaining state. `Services` is `none` for the nil
map of a zero-value context. -/
structure ServiceContext where
  Services : Option (GoMap ServiceInfo)
  HistoricalExperiments : List ExperimentInfo
  deriving DecidableEq, Repr

/-- MCP server structure; `context` is a pointer. -/
structure ChaosBladeMCPServer where
  context : Option ServiceContext
  deriving DecidableEq, Repr

/-- Response structure. -/
structure MCPResponse where
  Explanation : String
  Command : String
  Error : String
  deriving DecidableEq, Repr

/-! ## The template table -/

/-- ChaosBlade command templates (`main.go`, lines 60-66). -/
def commandTemplates : GoMap String :=
  [ ("cpu", "blade create cpu load --cpu-percent %d --timeout %s"),
    ("memory", "blade create mem load --mem-percent %d --timeout %s"),
    ("network", "blade create network loss --percent %d --interface %s --timeout %s"),
    ("disk", "blade create disk fill --path %s --size %d --timeout %s"),
    ("process", "blade create process kill --process %s --timeout %s") ]

/-! ## The command patterns of the specification (section 6) -/

/-- The five experiment types of the specification. -/
inductive ExperimentType where
  | cpu | memory | network | disk | process
  deriving DecidableEq, Repr

/-- The key under which an experiment type is stored in the table. -/
def ExperimentType.key : ExperimentType → String
  | .cpu => "cpu"
  | .memory => "memory"
  | .network => "network"
  | .disk => "disk"
  | .process => "process"

/-- The vocabulary of experiment types, in the order of the specification. -/
def experimentTypes : List ExperimentType :=
  [.cpu, .memory, .network, .disk, .process]

/-- The command pattern the specification lists for each experiment type,
written with its slot markers `<int>`, `<string>` and `<duration>`. -/
def specPattern : ExperimentType → String
  | .cpu => "blade create cpu load --cpu-percent <int> --timeout <duration>"
  | .memory => "blade create mem load --mem-percent <int> --timeout <duration>"
  | .network =>
      "blade create network loss --percent <int> --interface <string> --timeout <duration>"
  | .disk => "blade create disk fill --path <string> --size <int> --timeout <duration>"
  | .process => "blade create process kill --process <string> --timeout <duration>"

/-- The placeholder that stands for a slot marker: `%d` for `int`, `%s` for
`string` and `duration`; any other marker is left as it is. -/
def slotVerb (marker : List Char) : List Char :=
  if marker = "int".data then "%d".data
  else if marker = "string".data ∨ marker = "duration".data then "%s".data
  else '<' :: (marker ++ ['>'])

/-- Rewrites every slot marker `<...>` of a pattern into its placeholder.
The first argument holds the characters of a marker that is being read
(most recent first), or `none` outside a marker. -/
def rewriteSlots : Option (List Char) → List Char → List Char
  | none, [] => []
  | some acc, [] => '<' :: acc.reverse
  | none, c :: cs =>
      if c = '<' then rewriteSlots (some []) cs else c :: rewriteSlots none cs
  | some acc, c :: cs =>
      if c = '>' then slotVerb acc.reverse ++ rewriteSlots none cs
      else rewriteSlots (some (c :: acc)) cs

/-- The specification pattern of a type in the placeholder language. -/
def specTemplate (t : ExperimentType) : String :=
  String.mk (rewriteSlots none (specPattern t).data)

/-- Splits a command line into its words at every blank. -/
def splitWords : List Char → List (List Char)
  | [] => [[]]
  | c :: cs =>
      match splitWords cs with
      | [] => [[c]]
      | w :: ws => if c = ' ' then [] :: w :: ws else (c :: w) :: ws

/-- The pairs of consecutive words made of a flag (`--name`) followed by a
placeholder (`%verb`). -/
def flagSlots : List (List Char) → List (String × String)
  | [] => []
  | w :: rest =>
      match rest with
      | [] => []
      | v :: _ =>
          (if w.take 2 = ['-', '-'] ∧ v.head? = some '%' then [(String.mk w, String.mk v)]
           else []) ++ flagSlots rest

/-- The flags of a template that take a placeholder, each with the verb of its
placeholder, in order of appearance. -/
def slotsOf (template : String) : List (String × String) :=
  flagSlots (splitWords template.data)

/-! ## Construction of the server and the set-up done by `main` -/

/-- The constructor `NewChaosBladeMCPServer` (`main.go`, lines 68-75): a fresh
context with an empty service map and an empty experiment slice. -/
def NewChaosBladeMCPServer (_ : Unit) : ChaosBladeMCPServer :=
  { context := some { Services := some [], HistoricalExperiments := [] } }

/-- The statement `server.context.Services[key] = info`; `none` stands for the
run-time panic, which Go raises when `context` is nil and when `Services` is
the nil map. -/
def assignService (server : ChaosBladeMCPServer) (key : String) (info : ServiceInfo) :
    Option ChaosBladeMCPServer :=
  match server.context with
  | none => none
  | some ctx =>
      match ctx.Services with
      | none => none
      | some m => some { context := some { ctx with Services := some (GoMap.set m key info) } }

/-- The comma-ok read `info, ok := ctx.Services[name]`; the nil map reads as
an empty one. -/
def lookupService (ctx : ServiceContext) (name : String) : Option ServiceInfo :=
  match ctx.Services with
  | none => none
  | some m => GoMap.get m name

/-- The server that `main` has built when it starts to listen (`main.go`,
lines 78-93): a new server with the two default services assigned. -/
def main : Option ChaosBladeMCPServer :=
  let server := NewChaosBladeMCPServer ()
  (assignService server "web-server"
      { Name := "web-server", Port := 8080, Host := "localhost", Process := "nginx" }).bind
    fun server =>
      assignService server "database"
        { Name := "database", Port := 5432, Host := "localhost", Process := "postgres" }

/-! ## Filling the slots of a template

The templates are Go format strings. `main.go` holds them but never formats
one; the slots are filled the way Go's `fmt.Sprintf` does it. -/

/-- An argument handed to a template: an integer or a string. -/
inductive Arg where
  | int (i : Int)
  | str (s : String)
  deriving DecidableEq, Repr

/-- The decimal writing of an integer, with a leading `-` when negative. -/
def decimal : Int → String
  | .ofNat m => Nat.repr m
  | .negSucc m => "-" ++ Nat.repr (m + 1)

/-- What Go prints for an argument whose type does not fit the verb:
`%!verb(type=value)`. -/
def Arg.mismatch (verb : Char) : Arg → List Char
  | .int i => "%!".data ++ verb :: ("(int=".data ++ (decimal i).data ++ [')'])
  | .str s => "%!".data ++ verb :: ("(string=".data ++ s.data ++ [')'])

/-- The text one verb produces for one argument: `%d` (and `%v`) writes an
integer in decimal, `%s` (and `%v`) writes a string as it is. Other verbs,
flags and widths are not interpreted. -/
def formatVerb (verb : Char) (a : Arg) : List Char :=
  match a with
  | .int i => if verb = 'd' ∨ verb = 'v' then (decimal i).data else a.mismatch verb
  | .str s => if verb = 's' ∨ verb = 'v' then s.data else a.mismatch verb

/-- The text Go appends for arguments no verb has used. -/
def extraArgs : List Arg → List Char
  | [] => []
  | a :: rest =>
      (match a with
        | .int i => "int=".data ++ (decimal i).data
        | .str s => "string=".data ++ s.data) ++
      (if rest = [] then [] else ", ".data ++ extraArgs rest)

/-- Scans a format string and writes the arguments into its placeholders, left
to right. -/
def sprintfChars : List Char → List Arg → List Char
  | [], [] => []
  | [], a :: rest => "%!(EXTRA ".data ++ extraArgs (a :: rest) ++ [')']
  | c :: cs, args =>
      if c = '%' then
        match cs with
        | [] => "%!(NOVERB)".data ++ sprintfChars [] args
        | v :: rest =>
            if v = '%' then '%' :: sprintfChars rest args
            else
              match args with
              | [] => "%!".data ++ v :: ("(MISSING)".data ++ sprintfChars rest [])
              | a :: more => formatVerb v a ++ sprintfChars rest more
      else c :: sprintfChars cs args

/-- Go's `fmt.Sprintf` for the verbs `%d`, `%s`, `%v` and `%%`: the filling of
the slots of a template with arguments, in order. -/
def Sprintf (format : String) (args : List Arg) : String :=
  String.mk (sprintfChars format.data args)

/-! ## The experiment tracker -/

/-- Modelled from the spec: the status enumeration of an experiment record
(`main.go` declares `Status` as a plain string and holds no status value). -/
inductive Status where
  | Pending | Running | Completed | Failed | Aborted
  deriving DecidableEq, Repr

/-- Modelled from the spec: the string stored in `ExperimentInfo.Status` for a
status of the enumeration, its name (`main.go` stores no status). -/
def Status.name : Status → String
  | .Pending => "Pending"
  | .Running => "Running"
  | .Completed => "Completed"
  | .Failed => "Failed"
  | .Aborted => "Aborted"

/-- Modelled from the spec: reads a stored status string back into the
enumeration; `none` for a string that names no status. -/
def Status.ofName (s : String) : Option Status :=
  if s = "Pending" then some .Pending
  else if s = "Running" then some .Running
  else if s = "Completed" then some .Completed
  else if s = "Failed" then some .Failed
  else if s = "Aborted" then some .Aborted
  else none

/-- Modelled from the spec: the state machine of the Experiment Tracker, which
`main.go` does not contain: `Pending -> Running -> {Completed, Failed}`, plus
`Pending|Running -> Aborted`. -/
def Status.canMoveTo : Status → Status → Bool
  | .Pending, .Running => true
  | .Running, .Completed => true
  | .Running, .Failed => true
  | .Pending, .Aborted => true
  | .Running, .Aborted => true
  | _, _ => false

/-- Modelled from the spec: the failure kinds of the Experiment Tracker
(section 7), which `main.go` does not declare. -/
inductive TrackerError where
  | UnknownExperiment
  | InvalidTransition
  deriving DecidableEq, Repr

/-- Modelled from the spec: `record` of the Experiment Tracker, which `main.go`
does not contain. It generates an id from a monotonic counter (the number of
experiments recorded so far, in decimal), timestamps the record with the
current instant `now`, sets the status `Pending` and appends the record to the
history. It returns the new context and the record. -/
def record (ctx : ServiceContext) (now : Nat) (description command : String) :
    ServiceContext × ExperimentInfo :=
  let e : ExperimentInfo :=
    { ID := Nat.repr ctx.HistoricalExperiments.length,
      Description := description,
      Command := command,
      Timestamp := now,
      Status := Status.Pending.name }
  ({ ctx with HistoricalExperiments := ctx.HistoricalExperiments ++ [e] }, e)

/-- Modelled from the spec: `list` of the Experiment Tracker, which `main.go`
does not contain: a read-only snapshot of the history in creation order. -/
def list (ctx : ServiceContext) : List ExperimentInfo :=
  ctx.HistoricalExperiments

/-- Modelled from the spec: the lookup of an experiment by id that
`updateStatus` needs, the first record of the history with that id. -/
def findExperiment : List ExperimentInfo → String → Option ExperimentInfo
  | [], _ => none
  | e :: rest, id => if e.ID = id then some e else findExperiment rest id

/-- Modelled from the spec: the in-place mutation of `updateStatus`, which
writes a status into the first record of the history with the given id and
keeps every record at its position. -/
def setStatus : List ExperimentInfo → String → Status → List ExperimentInfo
  | [], _, _ => []
  | e :: rest, id, st =>
      if e.ID = id then { e with Status := st.name } :: rest
      else e :: setStatus rest id st

/-- Modelled from the spec: `updateStatus` of the Experiment Tracker, which
`main.go` does not contain. It fails with `UnknownExperiment` when the id is
absent and with `InvalidTransition` when the new status is not reachable from
the current one; otherwise it mutates the record in place. It returns the
context after the call and the failure, if any. -/
def updateStatus (ctx : ServiceContext) (id : String) (newStatus : Status) :
    ServiceContext × Option TrackerError :=
  match findExperiment ctx.HistoricalExperiments id with
  | none => (ctx, some .UnknownExperiment)
  | some e =>
      match Status.ofName e.Status with
      | none => (ctx, some .InvalidTransition)
      | some cur =>
          if cur.canMoveTo newStatus then
            ({ ctx with
                HistoricalExperiments := setStatus ctx.HistoricalExperiments id newStatus },
              none)
          else (ctx, some .InvalidTransition)

/-- A sequence of `record` calls, each given as its instant, description and
command, performed one after the other. -/
def recordAll (ctx : ServiceContext) : List (Nat × String × String) → ServiceContext
  | [] => ctx
  | (now, description, command) :: rest =>
      recordAll (record ctx now description command).1 rest

/-- The records that a run of `record` calls appends when the history already
holds `n` records. -/
def recordsFrom : Nat → List (Nat × String × String) → List ExperimentInfo
  | _, [] => []
  | n, (now, description, command) :: rest =>
      { ID := Nat.repr n, Description := description, Command := command,
        Timestamp := now, Status := Status.Pending.name } :: recordsFrom (n + 1) rest

/-- A history with one experiment that has run to completion: recorded, then
moved to `Running`, then to `Completed`. -/
def completedContext : ServiceContext :=
  (updateStatus (updateStatus (record ⟨some [], []⟩ 0 "cpu load" "blade create cpu load").1 "0"
    Status.Running).1 "0" Status.Completed).1

/-- The value of a decimal digit character. -/
def charDigit (c : Char) : Nat := c.toNat - 48

/-- The number a list of decimal digit characters denotes, continuing from an
accumulated value. -/
def digitsValue : Nat → List Char → Nat
  | acc, [] => acc
  | acc, c :: cs => digitsValue (10 * acc + charDigit c) cs

/-! ## Lemmas on Go maps -/

theorem GoMap.get_eq_none_iff {V : Type} (m : GoMap V) (k : String) :
    GoMap.get m k = none ↔ k ∉ GoMap.keys m := by
  induction m with
  | nil => simp [GoMap.get, GoMap.keys]
  | cons p rest ih =>
    obtain ⟨k', v⟩ := p
    by_cases h : k' = k
    · simp [GoMap.get, GoMap.keys, h]
    · have h' : ¬ k = k' := fun e => h e.symm
      simp only [GoMap.get, h, if_false, ih]
      simp [GoMap.keys, h']

theorem GoMap.get_set_same {V : Type} (m : GoMap V) (k : String) (v : V) :
    GoMap.get (GoMap.set m k v) k = some v := by
  induction m with
  | nil => simp [GoMap.set, GoMap.get]
  | cons p rest ih =>
    obtain ⟨k', v'⟩ := p
    by_cases h : k' = k
    · simp [GoMap.set, GoMap.get, h]
    · simp [GoMap.set, GoMap.get, h, ih]

theorem GoMap.get_set_other {V : Type} (m : GoMap V) (k j : String) (v : V) (hj : j ≠ k) :
    GoMap.get (GoMap.set m k v) j = GoMap.get m j := by
  induction m with
  | nil => simp [GoMap.set, GoMap.get, hj.symm]
  | cons p rest ih =>
    obtain ⟨k', v'⟩ := p
    by_cases h : k' = k
    · subst h
      simp [GoMap.set, GoMap.get, hj.symm]
    · by_cases h2 : k' = j
      · subst h2
        simp [GoMap.set, GoMap.get, h]
      · simp [GoMap.set, GoMap.get, h, h2, ih]

theorem GoMap.keys_set_present {V : Type} (m : GoMap V) (k : String) (v : V)
    (hk : k ∈ GoMap.keys m) : GoMap.keys (GoMap.set m k v) = GoMap.keys m := by
  induction m with
  | nil => simp [GoMap.keys] at hk
  | cons p rest ih =>
    obtain ⟨k', v'⟩ := p
    by_cases h : k' = k
    · simp [GoMap.set, GoMap.keys, h]
    · have hk' : k ∈ GoMap.keys rest := by
        simp only [GoMap.keys, List.map_cons, List.mem_cons] at hk
        rcases hk with hk | hk
        · exact absurd hk.symm h
        · exact hk
      have := ih hk'
      simp only [GoMap.keys] at this
      simp [GoMap.set, GoMap.keys, h, this]

theorem GoMap.keys_set_absent {V : Type} (m : GoMap V) (k : String) (v : V)
    (hk : k ∉ GoMap.keys m) : GoMap.keys (GoMap.set m k v) = GoMap.keys m ++ [k] := by
  induction m with
  | nil => simp [GoMap.keys, GoMap.set]
  | cons p rest ih =>
    obtain ⟨k', v'⟩ := p
    simp only [GoMap.keys, List.map_cons, List.mem_cons, not_or] at hk
    have h : ¬ k' = k := fun e => hk.1 e.symm
    have := ih hk.2
    simp only [GoMap.keys] at this
    simp [GoMap.set, GoMap.keys, h, this]

/-! ## Lemmas on format strings -/

theorem sprintfChars_literal (l rest : List Char) (args : List Arg) (h : '%' ∉ l) :
    sprintfChars (l ++ rest) args = l ++ sprintfChars rest args := by
  induction l with
  | nil => rfl
  | cons c cs ih =>
    have hc : c ≠ '%' := fun e => h (by simp [e])
    have hcs : '%' ∉ cs := fun e => h (by simp [e])
    rw [List.cons_append, sprintfChars.eq_def]
    simp only [if_neg hc, ih hcs, List.cons_append]

theorem sprintfChars_verb (v : Char) (rest : List Char) (a : Arg) (more : List Arg)
    (hv : v ≠ '%') :
    sprintfChars ('%' :: v :: rest) (a :: more)
      = formatVerb v a ++ sprintfChars rest more := by
  rw [sprintfChars.eq_def]
  simp only [if_pos, if_neg hv]

/-! ## The decimal writing of a counter is injective -/

theorem digitsValue_append (acc : Nat) (l r : List Char) :
    digitsValue acc (l ++ r) = digitsValue (digitsValue acc l) r := by
  induction l generalizing acc with
  | nil => rfl
  | cons c cs ih => exact ih (10 * acc + charDigit c)

theorem toDigitsCore_append (fuel : Nat) :
    ∀ (n : Nat) (ds : List Char),
      Nat.toDigitsCore 10 fuel n ds = Nat.toDigitsCore 10 fuel n [] ++ ds := by
  induction fuel with
  | zero => intro n ds; simp [Nat.toDigitsCore]
  | succ f ih =>
    intro n ds
    simp only [Nat.toDigitsCore]
    split
    · simp
    · rw [ih (n / 10) (_ :: ds), ih (n / 10) [_]]
      simp

theorem charDigit_digitChar (k : Nat) (h : k < 10) : charDigit (Nat.digitChar k) = k := by
  interval_cases k <;> decide

theorem digitsValue_toDigitsCore (fuel : Nat) :
    ∀ n : Nat, n < fuel → digitsValue 0 (Nat.toDigitsCore 10 fuel n []) = n := by
  induction fuel with
  | zero => intro n h; omega
  | succ f ih =>
    intro n h
    have hd := charDigit_digitChar (n % 10) (Nat.mod_lt _ (by decide))
    rw [Nat.toDigitsCore]
    by_cases h0 : n / 10 = 0
    · rw [if_pos h0]
      show 10 * 0 + charDigit (Nat.digitChar (n % 10)) = n
      rw [hd]
      omega
    · rw [if_neg h0, toDigitsCore_append, digitsValue_append, ih (n / 10) (by omega)]
      show 10 * (n / 10) + charDigit (Nat.digitChar (n % 10)) = n
      rw [hd]
      omega

theorem repr_injective : Function.Injective Nat.repr := by
  intro a b h
  have ha := digitsValue_toDigitsCore (a + 1) a (Nat.lt_succ_self a)
  have hb := digitsValue_toDigitsCore (b + 1) b (Nat.lt_succ_self b)
  have h' : Nat.toDigits 10 a = Nat.toDigits 10 b := by
    have := congrArg String.data h
    simpa [Nat.repr, List.asString] using this
  unfold Nat.toDigits at h'
  rw [h'] at ha
  omega

/-! ## Lemmas on the experiment history -/

theorem recordAll_history (calls : List (Nat × String × String)) :
    ∀ ctx : ServiceContext,
      (recordAll ctx calls).HistoricalExperiments
        = ctx.HistoricalExperiments ++ recordsFrom ctx.HistoricalExperiments.length calls := by
  induction calls with
  | nil => intro ctx; simp [recordAll, recordsFrom]
  | cons c rest ih =>
    intro ctx
    obtain ⟨now, description, command⟩ := c
    rw [recordAll, ih]
    simp [record, recordsFrom]

theorem recordAll_append (calls more : List (Nat × String × String)) :
    ∀ ctx : ServiceContext,
      recordAll ctx (calls ++ more) = recordAll (recordAll ctx calls) more := by
  induction calls with
  | nil => intro ctx; rfl
  | cons c rest ih =>
    intro ctx
    obtain ⟨now, description, command⟩ := c
    show recordAll (record ctx now description command).1 (rest ++ more) = _
    rw [ih]
    rfl

theorem recordsFrom_length (calls : List (Nat × String × String)) :
    ∀ n, (recordsFrom n calls).length = calls.length := by
  induction calls with
  | nil => intro n; rfl
  | cons c rest ih =>
    intro n
    obtain ⟨now, description, command⟩ := c
    simp [recordsFrom, ih]

theorem recordsFrom_calls (calls : List (Nat × String × String)) :
    ∀ n, (recordsFrom n calls).map (fun e => (e.Timestamp, e.Description, e.Command))
      = calls := by
  induction calls with
  | nil => intro n; rfl
  | cons c rest ih =>
    intro n
    obtain ⟨now, description, command⟩ := c
    simp [recordsFrom, ih]

theorem recordsFrom_status (calls : List (Nat × String × String)) :
    ∀ n, (recordsFrom n calls).map ExperimentInfo.Status
      = List.replicate calls.length Status.Pending.name := by
  induction calls with
  | nil => intro n; rfl
  | cons c rest ih =>
    intro n
    obtain ⟨now, description, command⟩ := c
    simp [recordsFrom, ih, List.replicate]

theorem recordsFrom_ids (calls : List (Nat × String × String)) :
    ∀ n, (recordsFrom n calls).map ExperimentInfo.ID
      = (List.range' n calls.length).map Nat.repr := by
  induction calls with
  | nil => intro n; rfl
  | cons c rest ih =>
    intro n
    obtain ⟨now, description, command⟩ := c
    simp [recordsFrom, ih, List.range']

theorem Status.ofName_name (s : Status) : Status.ofName s.name = some s := by
  cases s <;> decide

theorem setStatus_ids (h : List ExperimentInfo) (id : String) (st : Status) :
    (setStatus h id st).map ExperimentInfo.ID = h.map ExperimentInfo.ID := by
  induction h with
  | nil => rfl
  | cons e rest ih =>
    by_cases he : e.ID = id
    · simp [setStatus, he]
    · simp [setStatus, he, ih]

theorem findExperiment_setStatus (h : List ExperimentInfo) (id : String) (st : Status)
    (e : ExperimentInfo) (hfind : findExperiment h id = some e) :
    findExperiment (setStatus h id st) id = some { e with Status := st.name } := by
  induction h with
  | nil => simp [findExperiment] at hfind
  | cons x rest ih =>
    by_cases hx : x.ID = id
    · simp only [findExperiment, hx, if_true, Option.some.injEq] at hfind
      subst hfind
      simp [setStatus, findExperiment, hx]
    · simp only [findExperiment, hx, if_false] at hfind
      simp [setStatus, findExperiment, hx, ih hfind]

/-! ## Contracts of the template table -/

/-- C1: for each of the five experiment types, the string stored in
`commandTemplates` under the key of the type is the command pattern the
specification lists for that type with every `<int>` written as `%d` and every
`<string>` or `<duration>` written as `%s`. The slots come in the same order:
for network the flags that take a slot are percent, interface, timeout, and for
disk they are path, size, timeout. -/
theorem commandTemplates_match_spec_patterns :
    (∀ t : ExperimentType, GoMap.get commandTemplates t.key = some (specTemplate t)) ∧
    (GoMap.get commandTemplates "network").map slotsOf
      = some [("--percent", "%d"), ("--interface", "%s"), ("--timeout", "%s")] ∧
    (GoMap.get commandTemplates "disk").map slotsOf
      = some [("--path", "%s"), ("--size", "%d"), ("--timeout", "%s")] := by
  refine ⟨?_, by decide, by decide⟩
  intro t
  cases t <;> decide

/-- C2: the table has exactly one template for every experiment type and
nothing else. Its keys are the keys of the five experiment types, without
repetition; the lookup succeeds for each experiment type; and the lookup of a
string finds no template exactly when the string is not one of `cpu`, `memory`,
`network`, `disk`, `process`. -/
theorem commandTemplates_keys_exact :
    GoMap.keys commandTemplates = experimentTypes.map ExperimentType.key ∧
    (GoMap.keys commandTemplates).Nodup ∧
    commandTemplates.length = 5 ∧
    (∀ t : ExperimentType, ∃ tpl, GoMap.get commandTemplates t.key = some tpl) ∧
    (∀ k : String, GoMap.get commandTemplates k = none ↔
      k ∉ ["cpu", "memory", "network", "disk", "process"]) := by
  refine ⟨by decide, by decide, by decide, ?_, ?_⟩
  · intro t
    cases t <;> exact ⟨_, rfl⟩
  · intro k
    rw [GoMap.get_eq_none_iff]
    have hkeys : GoMap.keys commandTemplates
        = ["cpu", "memory", "network", "disk", "process"] := by decide
    rw [hkeys]

/-- C7: for every integer `p` and every duration string `d`, filling the two
slots of the cpu template of `commandTemplates` in order with `p` (for `%d`)
and `d` (for `%s`) yields
`blade create cpu load --cpu-percent ` followed by the decimal writing of `p`,
` --timeout ` and `d`, where the decimal writing is the standard one; for
`p = 50` and `d = 30s` this is
`blade create cpu load --cpu-percent 50 --timeout 30s`. -/
theorem cpu_template_filled (p : Int) (d : String) :
    (GoMap.get commandTemplates "cpu").map (fun t => Sprintf t [.int p, .str d])
        = some ("blade create cpu load --cpu-percent " ++ decimal p ++ " --timeout " ++ d) ∧
    decimal p = toString p ∧
    (GoMap.get commandTemplates "cpu").map (fun t => Sprintf t [.int 50, .str "30s"])
        = some "blade create cpu load --cpu-percent 50 --timeout 30s" := by
  refine ⟨?_, by cases p <;> rfl, by decide⟩
  have ht : GoMap.get commandTemplates "cpu"
      = some "blade create cpu load --cpu-percent %d --timeout %s" := by decide
  rw [ht, Option.map_some']
  congr 1
  apply String.ext
  show sprintfChars ("blade create cpu load --cpu-percent ".data ++
      ('%' :: 'd' :: (" --timeout ".data ++ ('%' :: 's' :: [])))) [.int p, .str d] = _
  rw [sprintfChars_literal _ _ _ (by decide), sprintfChars_verb _ _ _ _ (by decide),
    sprintfChars_literal _ _ _ (by decide), sprintfChars_verb _ _ _ _ (by decide)]
  simp [formatVerb, sprintfChars, String.data_append]

/-- C8: for every process name `n` and every duration string `d`, filling the
two `%s` slots of the process template of `commandTemplates` in order with `n`
and `d` yields `blade create process kill --process ` followed by `n`,
` --timeout ` and `d`. The database service registered by `main` has the
process `postgres`, and for `n = postgres` and the duration `30s` the result is
`blade create process kill --process postgres --timeout 30s`. -/
theorem process_template_filled (n d : String) :
    (GoMap.get commandTemplates "process").map (fun t => Sprintf t [.str n, .str d])
        = some ("blade create process kill --process " ++ n ++ " --timeout " ++ d) ∧
    ((main.bind fun s => s.context).bind fun c => lookupService c "database").map
        ServiceInfo.Process = some "postgres" ∧
    (GoMap.get commandTemplates "process").map
        (fun t => Sprintf t [.str "postgres", .str "30s"])
        = some "blade create process kill --process postgres --timeout 30s" := by
  refine ⟨?_, by decide, by decide⟩
  have ht : GoMap.get commandTemplates "process"
      = some "blade create process kill --process %s --timeout %s" := by decide
  rw [ht, Option.map_some']
  congr 1
  apply String.ext
  show sprintfChars ("blade create process kill --process ".data ++
      ('%' :: 's' :: (" --timeout ".data ++ ('%' :: 's' :: [])))) [.str n, .str d] = _
  rw [sprintfChars_literal _ _ _ (by decide), sprintfChars_verb _ _ _ _ (by decide),
    sprintfChars_literal _ _ _ (by decide), sprintfChars_verb _ _ _ _ (by decide)]
  simp [formatVerb, sprintfChars, String.data_append]

/-! ## The server and its registry -/

/-- C10: `NewChaosBladeMCPServer` returns a server whose context is present,
with an empty service registry (every lookup fails) and an empty experiment
history (length 0); any two calls return equal servers. -/
theorem newServer_empty :
    ∃ ctx, (NewChaosBladeMCPServer ()).context = some ctx ∧
      ctx.Services = some [] ∧
      (∀ k, lookupService ctx k = none) ∧
      ctx.HistoricalExperiments.length = 0 ∧
      ∀ u v : Unit, NewChaosBladeMCPServer u = NewChaosBladeMCPServer v :=
  ⟨_, rfl, rfl, fun _ => rfl, rfl, fun _ _ => rfl⟩

/-- C9: after the set-up performed by `main` the registry holds exactly two
entries, under the keys `web-server` and `database`; every entry is stored
under the key equal to its own `Name`; web-server is localhost:8080 with
process nginx and database is localhost:5432 with process postgres; the
experiment history is still empty. -/
theorem main_registry :
    ∃ ctx services, main = some { context := some ctx } ∧
      ctx.Services = some services ∧
      services.length = 2 ∧
      GoMap.keys services = ["web-server", "database"] ∧
      (GoMap.keys services).Nodup ∧
      services.all (fun p => decide (p.1 = p.2.Name)) = true ∧
      lookupService ctx "web-server"
        = some { Name := "web-server", Port := 8080, Host := "localhost", Process := "nginx" } ∧
      lookupService ctx "database"
        = some { Name := "database", Port := 5432, Host := "localhost",
                 Process := "postgres" } ∧
      (∀ k, lookupService ctx k = none ↔ k ∉ ["web-server", "database"]) ∧
      ctx.HistoricalExperiments = [] := by
  refine ⟨_, _, rfl, rfl, by decide, by decide, by decide, by decide, by decide, by decide,
    ?_, rfl⟩
  intro k
  show GoMap.get _ k = none ↔ _
  rw [GoMap.get_eq_none_iff]
  rfl

/-- C6, as stated, fails: after `main` the name `web-server` is registered with
port 8080, and assigning another `ServiceInfo` under the same name succeeds and
replaces the stored one. -/
theorem register_duplicate_overwrites :
    (main.bind fun s => s.context).map (fun c => lookupService c "web-server")
      = some (some
          { Name := "web-server", Port := 8080, Host := "localhost", Process := "nginx" }) ∧
    ((main.bind fun s =>
        assignService s "web-server"
          { Name := "web-server", Port := 9090, Host := "10.0.0.7", Process := "envoy" }).bind
      fun s => s.context).map (fun c => lookupService c "web-server")
      = some (some
          { Name := "web-server", Port := 9090, Host := "10.0.0.7", Process := "envoy" }) := by
  decide

/-- C6, amended: registration is the map assignment into
`ServiceContext.Services`. The assignment panics exactly when the context of
the server or its `Services` map is nil. On a server where both exist it
succeeds for every name and leaves the history alone; afterwards the lookup of
the name yields the assigned `ServiceInfo` and the lookup of every other name
is unchanged. Under a name already present the stored `ServiceInfo` is replaced
and no entry is added (there is no `DuplicateService` failure); under a new
name one entry is added. The lookup of a name finds nothing exactly when the
name is absent from the registry. -/
theorem assignService_overwrites (server : ChaosBladeMCPServer) (name : String)
    (info : ServiceInfo) :
    (assignService server name info = none ↔
      (server.context = none ∨ ∃ ctx, server.context = some ctx ∧ ctx.Services = none)) ∧
    ∀ ctx services, server.context = some ctx → ctx.Services = some services →
      ∃ ctx' services', assignService server name info = some { context := some ctx' } ∧
        ctx'.Services = some services' ∧
        ctx'.HistoricalExperiments = ctx.HistoricalExperiments ∧
        lookupService ctx' name = some info ∧
        (∀ k, k ≠ name → lookupService ctx' k = lookupService ctx k) ∧
        (name ∈ GoMap.keys services →
          GoMap.keys services' = GoMap.keys services ∧ services'.length = services.length) ∧
        (name ∉ GoMap.keys services →
          GoMap.keys services' = GoMap.keys services ++ [name] ∧
          services'.length = services.length + 1) ∧
        (∀ k, lookupService ctx k = none ↔ k ∉ GoMap.keys services) := by
  constructor
  · cases hc : server.context with
    | none => simp [assignService, hc]
    | some ctx =>
      cases hm : ctx.Services with
      | none => simp [assignService, hc, hm]
      | some m => simp [assignService, hc, hm]
  · intro ctx services hctx hmap
    have hlen : ∀ l : GoMap ServiceInfo, l.length = (GoMap.keys l).length := by
      intro l
      simp [GoMap.keys]
    refine ⟨{ ctx with Services := some (GoMap.set services name info) },
      GoMap.set services name info, ?_, rfl, rfl, ?_, ?_, ?_, ?_, ?_⟩
    · simp [assignService, hctx, hmap]
    · simp only [lookupService]
      exact GoMap.get_set_same _ _ _
    · intro k hk
      simp only [lookupService, hmap]
      exact GoMap.get_set_other _ _ _ _ hk
    · intro h
      have hk := GoMap.keys_set_present services name info h
      exact ⟨hk, by rw [hlen, hlen, hk]⟩
    · intro h
      have hk := GoMap.keys_set_absent services name info h
      exact ⟨hk, by rw [hlen, hlen, hk]; simp⟩
    · intro k
      simp only [lookupService, hmap]
      exact GoMap.get_eq_none_iff _ _

/-- The amended C6 at concrete servers. On the server built by `main`, where
`web-server` is already registered with port 8080, assigning another
`ServiceInfo` under `web-server` succeeds, replaces the stored one, leaves the
database entry and the keys as they were and adds no entry. On a new server,
where `web-server` is absent, the same assignment adds the entry. On a
zero-value context, whose map is nil, it panics. -/
theorem assignService_overwrites_witness :
    (∃ ctx' services',
      assignService
          { context := some
              { Services := some
                  [("web-server",
                      { Name := "web-server", Port := 8080, Host := "localhost",
                        Process := "nginx" }),
                    ("database",
                      { Name := "database", Port := 5432, Host := "localhost",
                        Process := "postgres" })],
                HistoricalExperiments := [] } }
          "web-server"
          { Name := "web-server", Port := 9090, Host := "10.0.0.7", Process := "envoy" }
        = some { context := some ctx' } ∧
      ctx'.Services = some services' ∧
      lookupService ctx' "web-server"
        = some { Name := "web-server", Port := 9090, Host := "10.0.0.7", Process := "envoy" } ∧
      lookupService ctx' "database"
        = some { Name := "database", Port := 5432, Host := "localhost",
                 Process := "postgres" } ∧
      GoMap.keys services' = ["web-server", "database"] ∧
      services'.length = 2) ∧
    (∃ ctx' services',
      assignService (NewChaosBladeMCPServer ()) "web-server"
          { Name := "web-server", Port := 9090, Host := "10.0.0.7", Process := "envoy" }
        = some { context := some ctx' } ∧
      ctx'.Services = some services' ∧
      GoMap.keys services' = ["web-server"] ∧
      services'.length = 1) ∧
    assignService { context := some { Services := none, HistoricalExperiments := [] } }
        "web-server"
        { Name := "web-server", Port := 9090, Host := "10.0.0.7", Process := "envoy" }
      = none := by
  refine ⟨?_, ?_, ?_⟩
  · obtain ⟨ctx', services', h1, h2, _, h4, h5, h6, _, _⟩ :=
      (assignService_overwrites _ "web-server"
        { Name := "web-server", Port := 9090, Host := "10.0.0.7", Process := "envoy" }).2
        { Services := some
            [("web-server",
                { Name := "web-server", Port := 8080, Host := "localhost",
                  Process := "nginx" }),
              ("database",
                { Name := "database", Port := 5432, Host := "localhost",
                  Process := "postgres" })],
          HistoricalExperiments := [] } _ rfl rfl
    have hk := h6 (by decide)
    exact ⟨ctx', services', h1, h2, h4, (h5 "database" (by decide)).trans (by decide),
      hk.1, hk.2⟩
  · obtain ⟨ctx', services', h1, h2, _, _, _, _, h7, _⟩ :=
      (assignService_overwrites (NewChaosBladeMCPServer ()) "web-server"
        { Name := "web-server", Port := 9090, Host := "10.0.0.7", Process := "envoy" }).2
        { Services := some [], HistoricalExperiments := [] } [] rfl rfl
    have hk := h7 (by decide)
    exact ⟨ctx', services', h1, h2, hk.1, hk.2⟩
  · exact (assignService_overwrites
        { context := some { Services := none, HistoricalExperiments := [] } } "web-server"
        { Name := "web-server", Port := 9090, Host := "10.0.0.7", Process := "envoy" }).1.2
      (Or.inr ⟨_, rfl, rfl⟩)

/-! ## Contracts of the experiment tracker -/

/-- C4: the experiment history is an append-only log in creation order.
Starting from the context of the server returned by `NewChaosBladeMCPServer`,
whose list is empty, after the `record` calls `calls` the list has exactly as
many entries as there were calls, the entries carry the instants, descriptions
and commands of the calls in call order, every status is `Pending`, and the ids
are pairwise distinct; further calls only add entries behind the ones already
listed. -/
theorem list_after_records (calls more : List (Nat × String × String)) :
    ∃ ctx0, (NewChaosBladeMCPServer ()).context = some ctx0 ∧
      list ctx0 = [] ∧
      (list (recordAll ctx0 calls)).length = calls.length ∧
      (list (recordAll ctx0 calls)).map (fun e => (e.Timestamp, e.Description, e.Command))
        = calls ∧
      (list (recordAll ctx0 calls)).map ExperimentInfo.Status
        = List.replicate calls.length Status.Pending.name ∧
      ((list (recordAll ctx0 calls)).map ExperimentInfo.ID).Nodup ∧
      ∃ added, list (recordAll ctx0 (calls ++ more)) = list (recordAll ctx0 calls) ++ added := by
  refine ⟨_, rfl, rfl, ?_, ?_, ?_, ?_, ?_⟩
  · simp [list, recordAll_history, recordsFrom_length]
  · simp [list, recordAll_history, recordsFrom_calls]
  · simp [list, recordAll_history, recordsFrom_status]
  · simp only [list, recordAll_history, List.nil_append, recordsFrom_ids]
    exact (List.nodup_range' _ _).map repr_injective
  · refine ⟨recordsFrom
      (recordAll ⟨some [], []⟩ calls).HistoricalExperiments.length more, ?_⟩
    simp only [list]
    rw [recordAll_append, recordAll_history more]

/-- C5: status changes obey the state machine
`Pending -> Running -> {Completed, Failed}` plus `Pending|Running -> Aborted`.
For an experiment found under `id`: when its status is `Completed`, `Failed` or
`Aborted`, `updateStatus` with any new status fails with `InvalidTransition`
and returns the context unchanged; `updateStatus` succeeds exactly on the five
transitions of the state machine; any failing call leaves the context
unchanged; a successful call stores the new status in the record found under
`id` and leaves the registry alone; and the order of the history is the same
after every call. -/
theorem updateStatus_state_machine (ctx : ServiceContext) (id : String) (e : ExperimentInfo)
    (newStatus : Status)
    (hfind : findExperiment ctx.HistoricalExperiments id = some e) :
    ((e.Status = Status.Completed.name ∨ e.Status = Status.Failed.name ∨
        e.Status = Status.Aborted.name) →
      updateStatus ctx id newStatus = (ctx, some TrackerError.InvalidTransition)) ∧
    (∀ cur : Status, e.Status = cur.name →
      ((updateStatus ctx id newStatus).2 = none ↔
        (cur, newStatus) ∈ [(Status.Pending, Status.Running), (Status.Running, Status.Completed),
          (Status.Running, Status.Failed), (Status.Pending, Status.Aborted),
          (Status.Running, Status.Aborted)])) ∧
    ((updateStatus ctx id newStatus).2 ≠ none → (updateStatus ctx id newStatus).1 = ctx) ∧
    ((updateStatus ctx id newStatus).2 = none →
      findExperiment (updateStatus ctx id newStatus).1.HistoricalExperiments id
          = some { e with Status := newStatus.name } ∧
        (updateStatus ctx id newStatus).1.Services = ctx.Services) ∧
    (list (updateStatus ctx id newStatus).1).map ExperimentInfo.ID
      = (list ctx).map ExperimentInfo.ID := by
  refine ⟨?_, ?_, ?_, ?_, ?_⟩
  · intro h
    rcases h with h | h | h <;>
      simp [updateStatus, hfind, h, Status.ofName_name, Status.canMoveTo]
  · intro cur h
    simp only [updateStatus, hfind, h, Status.ofName_name]
    cases cur <;> cases newStatus <;> simp [Status.canMoveTo]
  · simp only [updateStatus, hfind]
    cases Status.ofName e.Status with
    | none => simp
    | some cur => by_cases hc : cur.canMoveTo newStatus = true <;> simp [hc]
  · simp only [updateStatus, hfind]
    cases Status.ofName e.Status with
    | none => simp
    | some cur =>
      by_cases hc : cur.canMoveTo newStatus = true
      · simp only [hc, if_true]
        intro _
        exact ⟨findExperiment_setStatus _ _ _ _ hfind, trivial⟩
      · simp [hc]
  · simp only [updateStatus, hfind, list]
    cases Status.ofName e.Status with
    | none => simp
    | some cur => by_cases hc : cur.canMoveTo newStatus = true <;> simp [hc, setStatus_ids]

/-- C5 at a completed experiment: moving it to `Running` fails with
`InvalidTransition` and the context stays as it was. -/
theorem updateStatus_state_machine_witness :
    findExperiment completedContext.HistoricalExperiments "0"
      = some { ID := "0", Description := "cpu load", Command := "blade create cpu load",
               Timestamp := 0, Status := "Completed" } ∧
    updateStatus completedContext "0" Status.Running
      = (completedContext, some TrackerError.InvalidTransition) :=
  ⟨by decide,
    (updateStatus_state_machine completedContext "0"
      { ID := "0", Description := "cpu load", Command := "blade create cpu load",
        Timestamp := 0, Status := "Completed" } Status.Running (by decide)).1
      (Or.inl (by decide))⟩

end ChaosBlade
